import Mathlib

/-!
Verification of the rocketfeed ingestion pipelines.

This file shallowly embeds the three poll-cycle pipelines of the repository:

* `plugins/events/plugin.py`        (`Events.check_for_new_events` and friends),
* `plugins/bootstrap/plugin.py`     (`Bootstrap.check_for_new_transactions`, `run_loop`),
* `plugins/transactions/transactions.py` (`QueuedTransactions.check_for_new_transactions`,
  `run_loop`),

together with the FIFO dedup cache (`cachetools.FIFOCache`, an external
dependency, modelled from its first-in-first-out semantics), the fractional
sort keys, the channel-prefix routing and the error-recovery state machine.

Python values are modelled as follows: transaction/block hashes are `Nat`,
calldata is `Nat` (abstract), scores (Python floats built from small integer
fractions) are `ℚ`, decoded argument maps are `List (String × Bool)` (the only
argument any verified property inspects is the boolean
`confirmDisableBootstrapMode`), and exceptions are an explicit `Except` with
the raising value carrying the mutated state, matching the fact that
in-place mutations performed before a Python exception persist.
External collaborators (web3 node, contract registry, Discord) are
environment records of pure functions.  Rendering of embed payloads is out of
scope (an embed is `Unit`); only whether `create_embed` returns an embed,
returns `None`, or raises is modelled.
-/

/-- Python's `str.lstrip("_")`: drop every leading underscore.  Used by all
variants to normalize decoded argument names (`arg.lstrip("_")`). -/
def lstripUnderscore (s : String) : String :=
  ⟨s.data.dropWhile (fun c => c = '_')⟩

/-- Boolean infix test on character lists: `needle` occurs contiguously in
`hay`.  Models Python's `needle in hay` on strings. -/
def listContainsSeq (needle hay : List Char) : Bool :=
  (List.range (hay.length + 1)).any (fun i => needle.isPrefixOf (hay.drop i))

/-- Python's substring test `needle in hay` for strings. -/
def strContains (hay needle : String) : Bool :=
  listContainsSeq needle.data hay.data

/-- Python's `s.startswith(p)` for strings, as a test on the character
lists. -/
def strStartsWith (s p : String) : Bool :=
  p.data.isPrefixOf s.data

/-- `cachetools.FIFOCache` restricted to what the pipelines use: the key set
in insertion order (oldest first) plus the capacity.  All values stored by the
pipelines are the constant `True`, so only keys are tracked. -/
structure FIFOCache where
  keys : List Nat
  maxsize : Nat
  deriving DecidableEq, Repr

namespace FIFOCache

/-- `FIFOCache(maxsize=n)`: empty cache. -/
def empty (n : Nat) : FIFOCache := ⟨[], n⟩

/-- Python `key in cache`.  A pure membership test: it does not reorder
anything (FIFO eviction ignores accesses). -/
def contains (c : FIFOCache) (k : Nat) : Bool := c.keys.contains k

/-- Python `cache[key] = value`.  A fresh key is appended (evicting the
oldest key first when the cache is full); re-setting a present key only
overwrites the value, so the key order — hence the eviction order — is
unchanged (neither pipeline ever re-sets a present key: both skip items
whose hash is already cached before inserting). -/
def insert (c : FIFOCache) (k : Nat) : FIFOCache :=
  if c.keys.contains k then c
  else if c.maxsize ≤ c.keys.length then ⟨c.keys.tail ++ [k], c.maxsize⟩
  else ⟨c.keys ++ [k], c.maxsize⟩

/-- Insert a list of keys left to right. -/
def insertAll (c : FIFOCache) (ks : List Nat) : FIFOCache :=
  ks.foldl insert c

end FIFOCache

/-- Observable steps of one poll cycle, in execution order:
`cacheInsert h` = a write of hash `h` into the persistent dedup cache;
`decodeAttempt h` = an ABI decode of the item with hash `h`
(`decode_function_input` / `processLog` / the minipool receipt decode);
`dispatch name h ch` = one `channel.send` for event `name` of the item with
hash `h`, to channel `ch` (`none` where the variant uses one fixed channel's
config key or the routing table has no entry to fall back to). -/
inductive Act where
  | cacheInsert (h : Nat)
  | decodeAttempt (h : Nat)
  | dispatch (name : String) (h : Nat) (channel : Option Nat)
  deriving DecidableEq, Repr

namespace Act

def isCacheInsert : Act → Bool
  | .cacheInsert _ => true
  | _ => false

def isDispatch : Act → Bool
  | .dispatch _ _ _ => true
  | _ => false

def isDecodeAttempt : Act → Bool
  | .decodeAttempt _ => true
  | _ => false

/-- The transaction hash an action is about. -/
def hashOf : Act → Nat
  | .cacheInsert h => h
  | .decodeAttempt h => h
  | .dispatch _ h _ => h

end Act

/-- One entry of the in-cycle `messages` list: the logical event name, the
transaction hash it came from, and the fractional sort key (`score`). -/
structure Msg where
  name : String
  hash : Nat
  score : ℚ
  deriving DecidableEq, Repr

/-- Sort key of the events pipeline (`plugins/events/plugin.py` line 221):
`score = event.blockNumber + (event.logIndex / 1000)`.  The transaction index
is not part of this key. -/
def eventsScore (blockNumber logIndex : Nat) : ℚ :=
  (blockNumber : ℚ) + (logIndex : ℚ) / 1000

/-- Sort key of the bootstrap pipeline (`plugins/bootstrap/plugin.py` lines
146–152): the block number, plus `transactionIndex * 10 ** -3`, plus — when
the event carries a `logIndex` — `logIndex * 10 ** -3` at the same scale. -/
def bootstrapScore (blockNumber transactionIndex : Nat) (logIndex : Option Nat) : ℚ :=
  (blockNumber : ℚ) + (transactionIndex : ℚ) * (1 / 1000) +
    (match logIndex with
     | some l => (l : ℚ) * (1 / 1000)
     | none => 0)

/-- Stable insertion into a score-sorted list: the new message goes before
the first strictly-greater-or-equal score, i.e. after every earlier message
of equal score — together with `sortMsgs` this computes exactly what
Python's stable `sorted(messages, key=lambda a: a["score"])` computes. -/
def insertMsg (m : Msg) : List Msg → List Msg
  | [] => [m]
  | x :: xs => if m.score ≤ x.score then m :: x :: xs else x :: insertMsg m xs

/-- Stable ascending sort by score, modelling
`sorted(messages, key=lambda a: a["score"], reverse=False)`. -/
def sortMsgs : List Msg → List Msg
  | [] => []
  | x :: xs => insertMsg x (sortMsgs xs)

theorem perm_insertMsg (m : Msg) (l : List Msg) : List.Perm (insertMsg m l) (m :: l) := by
  induction l with
  | nil => rfl
  | cons x xs ih =>
    by_cases h : m.score ≤ x.score
    · simp [insertMsg, h]
    · simp only [insertMsg, h, if_false]
      exact (ih.cons x).trans (List.Perm.swap m x xs)

theorem perm_sortMsgs (l : List Msg) : List.Perm (sortMsgs l) l := by
  induction l with
  | nil => rfl
  | cons x xs ih => exact (perm_insertMsg x (sortMsgs xs)).trans (ih.cons x)

/-- A raw log entry as returned by the two web3 filters of the events
pipeline (`Events.check_for_new_events`).  `isStatusUpdated` records whether
`event.get("event", None) == "StatusUpdated"`, i.e. whether the entry came
from the pre-processed `StatusUpdated` minipool filter. -/
structure RawLog where
  txHash : Nat
  address : Nat
  blockNumber : Nat
  transactionIndex : Nat
  logIndex : Nat
  removed : Bool
  isStatusUpdated : Bool
  deriving DecidableEq, Repr

/-- External collaborators of the events pipeline.
`contractNameOf` is `rp.get_name_by_address`; `eventNameOf` is the
composition `topic_mapping` / `processLog` / `internal_event_mapping`
performed on the default path for a log of a known contract (always
succeeding there, since the filter only returns logs whose topic is in the
registry); `minipoolName` is `handle_minipool_events`, returning the logical
event name when the called contract is a minipool and `none` (no embed, no
event) otherwise; `channels` is `cfg["discord.channels"]` in dict iteration
order, normally containing a `"default"` entry.  Rendering inside
`create_embed` is external and not modelled beyond the fact that an embed is
produced. -/
structure EventsEnv where
  contractNameOf : Nat → Option String
  eventNameOf : String → RawLog → String
  minipoolName : RawLog → Option String
  channels : List (String × Nat)

/-- Channel routing (`Events.check_for_new_events` lines 239–240):
`channel_candidates = [value for key, value in channels.items() if
message.event_name.startswith(key)]`, take the first candidate, else
`channels['default']` (`none` models the `KeyError` if the table had no
`default` entry). -/
def routeChannel (channels : List (String × Nat)) (name : String) : Option Nat :=
  match (channels.filter (fun kv => strStartsWith name kv.1)).head? with
  | some kv => some kv.2
  | none => channels.lookup "default"

/-- In-cycle mutable state of `check_for_new_events`: the `messages` list,
the same-cycle working set `tnx_hashes`, and the observable trace. -/
structure EventsCycleSt where
  messages : List Msg
  tnxHashes : List Nat
  trace : List Act
  deriving DecidableEq, Repr

/-- One iteration of the event loop (`Events.check_for_new_events` lines
192–228).  The persistent cache is only read here, never written: writes
happen after the dispatch loop.  An item is skipped when flagged removed or
already in the persistent cache; otherwise the default path (known contract
address) decodes and always yields an embed, the `StatusUpdated` path first
consults the same-cycle working set (double-emit guard), then
`handle_minipool_events` yields an embed exactly when the called contract is
a minipool; every non-skipped item's hash is appended to the working set,
including items that produced no event. -/
def eventsItem (env : EventsEnv) (cache : FIFOCache) (st : EventsCycleSt) (ev : RawLog) :
    EventsCycleSt :=
  if ev.removed || cache.contains ev.txHash then st
  else match env.contractNameOf ev.address with
    | some cname =>
        let ename := env.eventNameOf cname ev
        { messages := st.messages ++ [⟨ename, ev.txHash, eventsScore ev.blockNumber ev.logIndex⟩],
          tnxHashes := st.tnxHashes ++ [ev.txHash],
          trace := st.trace ++ [.decodeAttempt ev.txHash] }
    | none =>
        if ev.isStatusUpdated then
          if st.tnxHashes.contains ev.txHash then st
          else match env.minipoolName ev with
            | some ename =>
                { messages := st.messages ++
                    [⟨ename, ev.txHash, eventsScore ev.blockNumber ev.logIndex⟩],
                  tnxHashes := st.tnxHashes ++ [ev.txHash],
                  trace := st.trace ++ [.decodeAttempt ev.txHash] }
            | none =>
                { st with tnxHashes := st.tnxHashes ++ [ev.txHash],
                          trace := st.trace ++ [.decodeAttempt ev.txHash] }
        else { st with tnxHashes := st.tnxHashes ++ [ev.txHash] }

/-- Result of one events poll cycle. -/
structure EventsCycleOut where
  trace : List Act
  cache : FIFOCache
  messages : List Msg
  tnxHashes : List Nat
  deriving Repr

/-- One full cycle of `Events.check_for_new_events`: process every new
filter entry (the batch is the concatenation of both filters' entries in
iteration order), dispatch the collected messages in ascending score order
through the prefix routing, then — and only then — write every hash seen
this cycle into the persistent cache (`for tnx_hash in set(tnx_hashes):
self.tnx_hash_cache[tnx_hash] = True`).  Python iterates the `set` in an
unspecified order; the model fixes `List.dedup`'s order, and every verified
property depends only on the resulting key set. -/
def eventsCycle (env : EventsEnv) (cache : FIFOCache) (batch : List RawLog) :
    EventsCycleOut :=
  let st := batch.foldl (eventsItem env cache) ⟨[], [], []⟩
  let dispatches := (sortMsgs st.messages).map
    (fun m => Act.dispatch m.name m.hash (routeChannel env.channels m.name))
  let seen := st.tnxHashes.dedup
  { trace := st.trace ++ dispatches ++ seen.map Act.cacheInsert,
    cache := cache.insertAll seen,
    messages := st.messages,
    tnxHashes := st.tnxHashes }

/-- A raw transaction of a block fetched with `full_transactions=True`.
`toAddr = none` models a transaction without a usable `to` field (contract
creation); `status` is the status of its receipt. -/
structure RawTx where
  hash : Nat
  toAddr : Option Nat
  removed : Bool
  blockNumber : Nat
  transactionIndex : Nat
  callData : Nat
  status : Bool
  deriving DecidableEq, Repr

/-- A block with its transactions.  The timestamp is injected into the
decoded argument map as a pseudo-argument (`event.args["timestamp"]`); no
verified property reads it, so the cycles below do not consume it. -/
structure Block where
  timestamp : Nat
  txs : List RawTx
  deriving DecidableEq, Repr

/-- The Python exceptions the embedded code can raise:
`decodeErr` is the `ValueError` of `decode_function_input` when the calldata
matches no ABI entry of the contract; `attributeErr` is the `AttributeError`
of an `(Mutable)AttributeDict` lookup of a missing key. -/
inductive PyErr where
  | decodeErr
  | attributeErr
  deriving DecidableEq, Repr

/-- External collaborators of the two calldata-watching pipelines.
`decodeInput a d` is `contract.decode_function_input` for the contract at
`a` on calldata `d`: `some (function_identifier, raw argument names and
boolean values)` on success, `none` when the calldata matches no ABI entry
(the call raises).  `funcMap` is
`internal_function_mapping[contract_name].get(function, None)`. -/
structure TxEnv where
  addresses : List Nat
  nameOf : Nat → String
  decodeInput : Nat → Nat → Option (String × List (String × Bool))
  funcMap : String → String → Option String
  channel : Nat

/-- In-cycle mutable state of `Bootstrap.check_for_new_transactions`. -/
structure BootstrapCycleSt where
  cache : FIFOCache
  messages : List Msg
  trace : List Act
  deriving DecidableEq, Repr

/-- The administrative-disable gate of `Bootstrap.create_embed` (line 54):
`if "dao_disable" in event_name and not event.confirmDisableBootstrapMode:
return None`.  The second conjunct reads `confirmDisableBootstrapMode` as an
attribute of the *transaction* object `event` — the decoded arguments live
under `event.args` — and the transaction has no such key, so whenever the
first conjunct holds the lookup raises `AttributeError` (the parallel line
in `QueuedTransactions.create_embed` reads `args.confirmDisableBootstrapMode`
instead).  The remaining branches of `create_embed` only render the payload
(out of scope) and return an embed. -/
def bootstrapCreateEmbed (eventName : String) : Except PyErr (Option Unit) :=
  if strContains eventName "dao_disable" then .error .attributeErr
  else .ok (some ())

/-- One transaction of `Bootstrap.check_for_new_transactions` (lines
117–158): skip if flagged removed or already cached; for a transaction to a
watched address, first record its hash in the persistent cache (line 121,
i.e. mid-cycle), then decode its calldata (raising on mismatch), look the
function up in the registry, normalize argument names, apply the
`"disable"`-gate (line 140: skip unless `confirmDisableBootstrapMode` is
present and true), then build the embed and score the message. -/
def bootstrapTx (env : TxEnv) (st : BootstrapCycleSt) (tx : RawTx) :
    Except (PyErr × BootstrapCycleSt) BootstrapCycleSt :=
  if tx.removed || st.cache.contains tx.hash then .ok st
  else match tx.toAddr with
    | none => .ok st
    | some a =>
      if env.addresses.contains a then
        let st1 : BootstrapCycleSt :=
          { st with cache := st.cache.insert tx.hash,
                    trace := st.trace ++ [.cacheInsert tx.hash] }
        match env.decodeInput a tx.callData with
        | none => .error (.decodeErr, { st1 with trace := st1.trace ++ [.decodeAttempt tx.hash] })
        | some (fn, rawArgs) =>
          let st2 : BootstrapCycleSt := { st1 with trace := st1.trace ++ [.decodeAttempt tx.hash] }
          match env.funcMap (env.nameOf a) fn with
          | none => .ok st2
          | some ename =>
            let args := rawArgs.map (fun p => (lstripUnderscore p.1, p.2))
            let confirm := (args.lookup "confirmDisableBootstrapMode").getD false
            if strContains ename "disable" && !confirm then .ok st2
            else match bootstrapCreateEmbed ename with
              | .error e => .error (e, st2)
              | .ok none => .ok st2
              | .ok (some _) =>
                .ok { st2 with messages := st2.messages ++
                      [⟨ename, tx.hash, bootstrapScore tx.blockNumber tx.transactionIndex none⟩] }
      else .ok st

/-- One full cycle of `Bootstrap.check_for_new_transactions`: walk the new
blocks transaction by transaction (an uncaught exception aborts the walk,
keeping the cache writes already performed and dispatching nothing), then
send the collected messages in ascending score order to the single
configured bootstrap channel. -/
def bootstrapCycle (env : TxEnv) (cache : FIFOCache) (blocks : List Block) :
    Except (PyErr × BootstrapCycleSt) BootstrapCycleSt :=
  match blocks.foldlM (fun st b => b.txs.foldlM (bootstrapTx env) st)
      (⟨cache, [], []⟩ : BootstrapCycleSt) with
  | .error e => .error e
  | .ok st =>
    let dispatches := (sortMsgs st.messages).map
      (fun m => Act.dispatch m.name m.hash (some env.channel))
    .ok { st with trace := st.trace ++ dispatches }

/-- One element of the payload list returned by
`QueuedTransactions.check_for_new_transactions` (the `Response` container). -/
structure Response where
  eventName : String
  uniqueId : String
  blockNumber : Nat
  transactionIndex : Nat
  deriving DecidableEq, Repr

/-- In-cycle state of `QueuedTransactions.check_for_new_transactions`:
the returned payload and the observable trace.  This variant keeps no dedup
cache and performs no dispatch itself (the payload goes to a caller). -/
structure TxCycleSt where
  payload : List Response
  trace : List Act
  deriving DecidableEq, Repr

/-- The administrative-disable gate of `QueuedTransactions.create_embed`
(lines 56–57): `if "dao_disable" in event_name and not
args.confirmDisableBootstrapMode: return None`.  Unlike the bootstrap
variant this reads the decoded argument map, so: argument present and true →
an embed; present and false → `None`; absent → `AttributeError`.  The other
branches (deposit receipts, settings, upgrades) render the payload — out of
scope — and return an embed; the defensive raise for an unknown upgrade type
is not modelled (no verified property reaches it). -/
def txCreateEmbed (eventName : String) (args : List (String × Bool)) :
    Except PyErr (Option Unit) :=
  if strContains eventName "dao_disable" then
    match args.lookup "confirmDisableBootstrapMode" with
    | none => .error .attributeErr
    | some c => if c then .ok (some ()) else .ok none
  else .ok (some ())

/-- One transaction of `QueuedTransactions.check_for_new_transactions`
(lines 135–181): skip transactions without a `to` field and transactions to
unwatched addresses; then the receipt gate (lines 144–151): a *successful*
transaction to `rocketNodeDeposit` is skipped, and a *reverted* transaction
to any other watched contract is skipped — both before decoding; survivors
are decoded (raising on calldata mismatch), mapped through the registry, and
turned into a `Response` when `create_embed` yields an embed. -/
def txItem (env : TxEnv) (st : TxCycleSt) (tx : RawTx) :
    Except (PyErr × TxCycleSt) TxCycleSt :=
  match tx.toAddr with
  | none => .ok st
  | some a =>
    if env.addresses.contains a then
      let cname := env.nameOf a
      if cname = "rocketNodeDeposit" ∧ tx.status then .ok st
      else if cname ≠ "rocketNodeDeposit" ∧ ¬tx.status then .ok st
      else
        match env.decodeInput a tx.callData with
        | none => .error (.decodeErr, { st with trace := st.trace ++ [.decodeAttempt tx.hash] })
        | some (fn, rawArgs) =>
          let st1 : TxCycleSt := { st with trace := st.trace ++ [.decodeAttempt tx.hash] }
          match env.funcMap cname fn with
          | none => .ok st1
          | some ename =>
            let args := rawArgs.map (fun p => (lstripUnderscore p.1, p.2))
            match txCreateEmbed ename args with
            | .error e => .error (e, st1)
            | .ok none => .ok st1
            | .ok (some _) =>
              .ok { st1 with payload := st1.payload ++
                    [⟨ename, toString tx.hash ++ ":" ++ ename, tx.blockNumber,
                      tx.transactionIndex⟩] }
    else .ok st

/-- Pipeline state of the transactions variant, one of `"INIT"`,
`"RUNNING"`, `"OK"` (plus the block sources: the wide look-back used for the
full check in state `"INIT"`, and the incremental filter entries otherwise;
a `none` block models `BlockNotFound`). -/
structure TxLoopSt where
  state : String
  deriving DecidableEq, Repr

/-- Block sources of the transactions variant. -/
structure TxBlocks where
  lookbackBlocks : List (Option Block)
  newBlocks : List (Option Block)

/-- `QueuedTransactions.check_for_new_transactions` (lines 115–186):
remember whether the incoming state was `"INIT"` (full check), set the state
to `"RUNNING"`, walk the chosen block list — a block that can no longer be
found is logged and skipped (lines 130–134), any other exception escapes
with the state still `"RUNNING"` — and on completion set the state to
`"OK"` and return the payload. -/
def txCheck (env : TxEnv) (blocks : TxBlocks) (s : TxLoopSt) :
    Except (PyErr × TxLoopSt × TxCycleSt) (TxLoopSt × TxCycleSt) :=
  let doFull := s.state = "INIT"
  let chosen := if doFull then blocks.lookbackBlocks else blocks.newBlocks
  let run := chosen.foldlM
    (fun (st : TxCycleSt) (ob : Option Block) =>
      match ob with
      | none => (Except.ok st : Except (PyErr × TxCycleSt) TxCycleSt)
      | some b => b.txs.foldlM (txItem env) st)
    (⟨[], []⟩ : TxCycleSt)
  match run with
  | .error (e, st) => .error (e, ⟨"RUNNING"⟩, st)
  | .ok st => .ok (⟨"OK"⟩, st)

/-- `QueuedTransactions.run_loop` (lines 109–113): if the observed state is
`"RUNNING"` the plugin is re-initialized (`self.__init__`, which resets the
state to `"INIT"`) — and then `check_for_new_transactions()` is called
unconditionally on this same tick. -/
def txRunLoop (env : TxEnv) (blocks : TxBlocks) (s : TxLoopSt) :
    Except (PyErr × TxLoopSt × TxCycleSt) (TxLoopSt × TxCycleSt) :=
  let s1 := if s.state = "RUNNING" then (⟨"INIT"⟩ : TxLoopSt) else s
  txCheck env blocks s1

/-- The mutable fields of the `Bootstrap` cog that the recovery state
machine touches: `self.state` (one of `"OK"`, `"ERROR"`, `"STOPPED"`) and
the persistent dedup cache. -/
structure LoopSt where
  state : String
  cache : FIFOCache
  deriving DecidableEq, Repr

/-- A re-run of `Bootstrap.__init__` as attempted from `run_loop` (line
106).  `__init__` assigns `self.state = "OK"` (line 24) and a fresh empty
`FIFOCache(maxsize=256)` (line 25) *before* any operation that can raise
(filter re-acquisition, registry file read, address lookups, lines 31–38),
so both modelled fields read `"OK"` / empty afterwards whether or not the
re-run raised; `resetOk = false` means the tail raised, leaving the event
filter and function registry partially rebuilt — state outside this model —
and the exception is caught and only logged by `run_loop` (line 108). -/
def bootstrapReinitAttempt (resetOk : Bool) (_s : LoopSt) : LoopSt :=
  let done : LoopSt := { state := "OK", cache := FIFOCache.empty 256 }
  if resetOk then done else done

/-- `Bootstrap.run_loop` (lines 93–108), one tick.  `cyc` abstracts
`check_for_new_transactions` acting on the modelled fields, raising in the
error case with its in-place mutations kept.  A `"STOPPED"` pipeline does
nothing.  Otherwise, when the state is not `"ERROR"`, the state is set to
`"OK"` and the cycle runs; on success the tick returns, on an exception the
state is set to `"ERROR"`, the error is reported, and — still on this same
tick — a full re-initialization is attempted.  A tick that starts in state
`"ERROR"` goes straight to the re-initialization attempt. -/
def bootstrapRunLoop (cyc : LoopSt → Except LoopSt LoopSt) (resetOk : Bool)
    (s : LoopSt) : LoopSt :=
  if s.state = "STOPPED" then s
  else if s.state ≠ "ERROR" then
    match cyc { s with state := "OK" } with
    | .ok s1 => s1
    | .error s1 => bootstrapReinitAttempt resetOk { s1 with state := "ERROR" }
  else bootstrapReinitAttempt resetOk s

namespace FIFOCache

@[simp] theorem maxsize_insert (c : FIFOCache) (k : Nat) :
    (c.insert k).maxsize = c.maxsize := by
  unfold insert
  split
  · rfl
  split <;> rfl

@[simp] theorem maxsize_insertAll (c : FIFOCache) (ks : List Nat) :
    (c.insertAll ks).maxsize = c.maxsize := by
  induction ks generalizing c with
  | nil => rfl
  | cons x xs ih =>
    have : c.insertAll (x :: xs) = (c.insert x).insertAll xs := rfl
    rw [this, ih, maxsize_insert]

theorem contains_eq_false_iff (c : FIFOCache) (k : Nat) :
    c.contains k = false ↔ k ∉ c.keys := by
  simp [contains]

theorem keys_insertAll_of_nodup (cap : Nat) (hcap : 0 < cap) :
    ∀ ks : List Nat, ks.Nodup →
      ((empty cap).insertAll ks).keys = ks.drop (ks.length - cap) := by
  intro ks
  induction ks using List.reverseRecOn with
  | nil => intro _; simp [insertAll, empty]
  | append_singleton ks k ih =>
    intro hnd
    have hks : ks.Nodup := hnd.of_append_left
    have hk : k ∉ ks := by
      have := List.disjoint_of_nodup_append hnd
      intro hmem
      exact this hmem (List.mem_singleton_self k)
    have hIH := ih hks
    have happ : (empty cap).insertAll (ks ++ [k]) = ((empty cap).insertAll ks).insert k := by
      simp [insertAll]
    have hmax : ((empty cap).insertAll ks).maxsize = cap := by
      rw [maxsize_insertAll]; rfl
    have hnot : (((empty cap).insertAll ks).keys).contains k = false := by
      rw [hIH]
      simp only [List.contains_eq_any_beq, List.any_eq_false, beq_iff_eq]
      intro x hx he
      exact hk (he ▸ List.mem_of_mem_drop hx)
    rw [happ, insert, hnot]
    simp only [Bool.false_eq_true, if_false, hmax, hIH]
    by_cases hlen : ks.length < cap
    · have h0 : ks.length - cap = 0 := by omega
      have h1 : (ks ++ [k]).length - cap = 0 := by simp; omega
      have hnle : ¬ cap ≤ (ks.drop (ks.length - cap)).length := by
        simp [List.length_drop]; omega
      rw [if_neg hnle, h0, h1, List.drop_zero, List.drop_zero]
    · have hge : cap ≤ ks.length := by omega
      have hle : cap ≤ (ks.drop (ks.length - cap)).length := by
        simp [List.length_drop]; omega
      rw [if_pos hle, List.tail_drop]
      have h2 : (ks ++ [k]).length - cap = (ks.length - cap) + 1 := by simp; omega
      rw [h2, List.drop_append_of_le_length (by omega)]

/-- After `cap + 1` pairwise distinct fresh keys are inserted into an empty
cache of capacity `cap > 0`, the first key has been evicted. -/
theorem not_contains_head_insertAll (cap : Nat) (hcap : 0 < cap)
    (k : Nat) (t : List Nat) (hnd : (k :: t).Nodup) (hlen : (k :: t).length = cap + 1) :
    ((empty cap).insertAll (k :: t)).contains k = false := by
  have hkeys := keys_insertAll_of_nodup cap hcap (k :: t) hnd
  have hdrop : (k :: t).length - cap = 1 := by omega
  rw [hdrop] at hkeys
  simp only [List.drop_one, List.tail_cons] at hkeys
  rw [contains, hkeys]
  simp only [List.contains_eq_any_beq, List.any_eq_false, beq_iff_eq]
  intro x hx he
  exact (List.nodup_cons.mp hnd).1 (he ▸ hx)

end FIFOCache

/-- The hashes of a batch's items that one events cycle observes (processes
past the skip test): not flagged removed and not already in the persistent
cache at cycle start.  Includes items that produce no event. -/
def observedHashes (cache : FIFOCache) (batch : List RawLog) : List Nat :=
  (batch.filter (fun ev => !ev.removed && !cache.contains ev.txHash)).map (fun ev => ev.txHash)

/-- Number of `send` calls in a trace for notifications of the item with
hash `h`. -/
def dispatchCount (h : Nat) (tr : List Act) : Nat :=
  tr.countP (fun a => a.isDispatch && a.hashOf == h)

/-- Keys written into the persistent cache during a trace. -/
def insertedKeys (tr : List Act) : List Nat :=
  tr.filterMap (fun a => match a with | .cacheInsert k => some k | _ => none)

/-- The persistent-cache writes of a trace form a suffix: once the first
write happens, every later action is also a write — i.e. the cache is
updated in one block at the end of the cycle and not modified earlier. -/
def cacheWritesAtEnd (tr : List Act) : Bool :=
  (tr.dropWhile (fun a => !a.isCacheInsert)).all (fun a => a.isCacheInsert)

theorem eventsItem_skip (env : EventsEnv) (cache : FIFOCache) (st : EventsCycleSt)
    (ev : RawLog) (h : cache.contains ev.txHash = true) :
    eventsItem env cache st ev = st := by
  simp [eventsItem, h]

theorem eventsItem_spec (env : EventsEnv) (cache : FIFOCache) (st : EventsCycleSt)
    (ev : RawLog) :
    ∃ extT extM extH,
      (eventsItem env cache st ev).trace = st.trace ++ extT ∧
      (eventsItem env cache st ev).messages = st.messages ++ extM ∧
      (eventsItem env cache st ev).tnxHashes = st.tnxHashes ++ extH ∧
      (∀ a ∈ extT, a.isDecodeAttempt = true ∧ a.hashOf = ev.txHash) ∧
      (∀ m ∈ extM, m.hash = ev.txHash) ∧ extM.length ≤ 1 ∧
      (∀ x ∈ extH, x = ev.txHash) := by
  unfold eventsItem
  split
  · exact ⟨[], [], [], by simp, by simp, by simp, by simp, by simp, by simp, by simp⟩
  split
  · refine ⟨_, _, _, rfl, rfl, rfl, ?_, ?_, ?_, ?_⟩ <;>
      simp [Act.isDecodeAttempt, Act.hashOf]
  split
  · split
    · exact ⟨[], [], [], by simp, by simp, by simp, by simp, by simp, by simp, by simp⟩
    split
    · refine ⟨_, _, _, rfl, rfl, rfl, ?_, ?_, ?_, ?_⟩ <;>
        simp [Act.isDecodeAttempt, Act.hashOf]
    · refine ⟨[.decodeAttempt ev.txHash], [], [ev.txHash], rfl, by simp, rfl, ?_, ?_, ?_, ?_⟩ <;>
        simp [Act.isDecodeAttempt, Act.hashOf]
  · exact ⟨[], [], [ev.txHash], by simp, by simp, rfl, by simp, by simp, by simp, by simp⟩

theorem eventsItem_mem_tnxHashes (env : EventsEnv) (cache : FIFOCache)
    (st : EventsCycleSt) (ev : RawLog) (x : Nat) :
    x ∈ (eventsItem env cache st ev).tnxHashes ↔
      x ∈ st.tnxHashes ∨
        (ev.removed = false ∧ cache.contains ev.txHash = false ∧ x = ev.txHash) := by
  unfold eventsItem
  split
  · next hcond =>
    simp only [Bool.or_eq_true] at hcond
    constructor
    · exact Or.inl
    · rintro (hmem | ⟨hr, hc, _⟩)
      · exact hmem
      · rcases hcond with h | h
        · rw [hr] at h; cases h
        · rw [hc] at h; cases h
  next hcond =>
    simp only [Bool.or_eq_true, not_or, Bool.not_eq_true] at hcond
    obtain ⟨hr, hc⟩ := hcond
    split
    · simp [hr, hc, or_comm, eq_comm]
    split
    · split
      · next hws =>
        have hin : ev.txHash ∈ st.tnxHashes := by
          simpa [List.contains_eq_any_beq, List.any_eq_true, beq_iff_eq, eq_comm] using hws
        constructor
        · exact Or.inl
        · rintro (hmem | ⟨_, _, hx⟩)
          · exact hmem
          · exact hx ▸ hin
      split
      · simp [hr, hc, or_comm, eq_comm]
      · simp [hr, hc, or_comm, eq_comm]
    · simp [hr, hc, or_comm, eq_comm]

theorem eventsFold_no_h (env : EventsEnv) (cache : FIFOCache) (h : Nat)
    (hc : cache.contains h = true) :
    ∀ (batch : List RawLog) (st : EventsCycleSt),
      (∀ a ∈ st.trace, a.hashOf ≠ h) → (∀ m ∈ st.messages, m.hash ≠ h) →
      (∀ x ∈ st.tnxHashes, x ≠ h) →
      (∀ a ∈ (batch.foldl (eventsItem env cache) st).trace, a.hashOf ≠ h) ∧
      (∀ m ∈ (batch.foldl (eventsItem env cache) st).messages, m.hash ≠ h) ∧
      (∀ x ∈ (batch.foldl (eventsItem env cache) st).tnxHashes, x ≠ h) := by
  intro batch
  induction batch with
  | nil => intro st h1 h2 h3; exact ⟨h1, h2, h3⟩
  | cons ev evs ih =>
    intro st h1 h2 h3
    simp only [List.foldl_cons]
    by_cases hev : ev.txHash = h
    · rw [eventsItem_skip env cache st ev (hev ▸ hc)]
      exact ih st h1 h2 h3
    · obtain ⟨extT, extM, extH, e1, e2, e3, p1, p2, _, p3⟩ := eventsItem_spec env cache st ev
      apply ih
      · rw [e1]; intro a ha
        rcases List.mem_append.mp ha with hl | hr
        · exact h1 a hl
        · rw [(p1 a hr).2]; exact hev
      · rw [e2]; intro m hm
        rcases List.mem_append.mp hm with hl | hr
        · exact h2 m hl
        · rw [p2 m hr]; exact hev
      · rw [e3]; intro x hx
        rcases List.mem_append.mp hx with hl | hr
        · exact h3 x hl
        · rw [p3 x hr]; exact hev

theorem eventsFold_trace_decode (env : EventsEnv) (cache : FIFOCache) :
    ∀ (batch : List RawLog) (st : EventsCycleSt),
      (∀ a ∈ st.trace, a.isDecodeAttempt = true) →
      ∀ a ∈ (batch.foldl (eventsItem env cache) st).trace, a.isDecodeAttempt = true := by
  intro batch
  induction batch with
  | nil => intro st h1; exact h1
  | cons ev evs ih =>
    intro st h1
    simp only [List.foldl_cons]
    obtain ⟨extT, _, _, e1, _, _, p1, _, _, _⟩ := eventsItem_spec env cache st ev
    apply ih
    rw [e1]
    intro a ha
    rcases List.mem_append.mp ha with hl | hr
    · exact h1 a hl
    · exact (p1 a hr).1

theorem eventsFold_mem_tnxHashes (env : EventsEnv) (cache : FIFOCache) :
    ∀ (batch : List RawLog) (st : EventsCycleSt) (x : Nat),
      x ∈ (batch.foldl (eventsItem env cache) st).tnxHashes ↔
        x ∈ st.tnxHashes ∨ x ∈ observedHashes cache batch := by
  intro batch
  induction batch with
  | nil => intro st x; simp [observedHashes]
  | cons ev evs ih =>
    intro st x
    simp only [List.foldl_cons]
    rw [ih (eventsItem env cache st ev) x, eventsItem_mem_tnxHashes]
    have hobs : observedHashes cache (ev :: evs) =
        if ev.removed = false ∧ cache.contains ev.txHash = false
        then ev.txHash :: observedHashes cache evs
        else observedHashes cache evs := by
      by_cases hcond : ev.removed = false ∧ cache.contains ev.txHash = false
      · rw [if_pos hcond]
        unfold observedHashes
        rw [List.filter_cons_of_pos (by simp [hcond.1, hcond.2]), List.map_cons]
      · rw [if_neg hcond]
        unfold observedHashes
        rw [List.filter_cons_of_neg]
        simp only [Bool.and_eq_true, Bool.not_eq_true']
        intro hcontra
        exact hcond ⟨hcontra.1, hcontra.2⟩
    rw [hobs]
    by_cases hcond : ev.removed = false ∧ cache.contains ev.txHash = false
    · rw [if_pos hcond]
      simp only [List.mem_cons]
      constructor
      · rintro ((hs | ⟨_, _, hx⟩) | ho)
        · exact Or.inl hs
        · exact Or.inr (Or.inl hx)
        · exact Or.inr (Or.inr ho)
      · rintro (hs | hx | ho)
        · exact Or.inl (Or.inl hs)
        · exact Or.inl (Or.inr ⟨hcond.1, hcond.2, hx⟩)
        · exact Or.inr ho
    · rw [if_neg hcond]
      constructor
      · rintro ((hs | ⟨hr, hc, hx⟩) | ho)
        · exact Or.inl hs
        · exact absurd ⟨hr, hc⟩ hcond
        · exact Or.inr ho
      · rintro (hs | ho)
        · exact Or.inl (Or.inl hs)
        · exact Or.inr ho

theorem eventsFold_msg_count (env : EventsEnv) (cache : FIFOCache) (h : Nat) :
    ∀ (batch : List RawLog) (st : EventsCycleSt),
      ((batch.foldl (eventsItem env cache) st).messages.countP (fun m => m.hash == h)) ≤
        st.messages.countP (fun m => m.hash == h) +
          batch.countP (fun ev => ev.txHash == h) := by
  intro batch
  induction batch with
  | nil => intro st; simp
  | cons ev evs ih =>
    intro st
    simp only [List.foldl_cons]
    have hstep := ih (eventsItem env cache st ev)
    obtain ⟨_, extM, _, _, e2, _, _, p2, plen, _⟩ := eventsItem_spec env cache st ev
    have hext : extM.countP (fun m => m.hash == h) ≤ (if ev.txHash == h then 1 else 0) := by
      by_cases hev : ev.txHash = h
      · simp only [hev, beq_self_eq_true, if_true]
        calc extM.countP (fun m => m.hash == h) ≤ extM.length := List.countP_le_length _
        _ ≤ 1 := plen
      · have : extM.countP (fun m => m.hash == h) = 0 := by
          rw [List.countP_eq_zero]
          intro m hm
          simp only [beq_eq_false_iff_ne, ne_eq, beq_iff_eq]
          rw [p2 m hm]
          exact hev
        simp [this]
    rw [e2, List.countP_append] at hstep
    rw [List.countP_cons]
    by_cases hev : (ev.txHash == h) = true
    · simp only [hev, if_true] at hext ⊢
      omega
    · simp only [Bool.not_eq_true] at hev
      simp only [hev, Bool.false_eq_true, if_false] at hext ⊢
      omega

/-- The cycle state carried by a result, whether the cycle completed or was
aborted by an exception (Python keeps the in-place mutations either way). -/
def resSt {σ : Type} : Except (PyErr × σ) σ → σ
  | .ok st => st
  | .error (_, st) => st

theorem bootstrapTx_trace (env : TxEnv) (st : BootstrapCycleSt) (tx : RawTx) :
    ∃ ext, (resSt (bootstrapTx env st tx)).trace = st.trace ++ ext ∧
      ∀ a ∈ ext, a.isDispatch = false := by
  by_cases h1 : (tx.removed || st.cache.contains tx.hash) = true
  · exact ⟨[], by simp [bootstrapTx, h1, resSt], by simp⟩
  cases hto : tx.toAddr with
  | none => exact ⟨[], by simp [bootstrapTx, h1, hto, resSt], by simp⟩
  | some a =>
    by_cases h2 : env.addresses.contains a = true
    · have h2m : a ∈ env.addresses := by simpa using h2
      refine ⟨[.cacheInsert tx.hash, .decodeAttempt tx.hash], ?_, by simp [Act.isDispatch]⟩
      cases hdec : env.decodeInput a tx.callData with
      | none => simp [bootstrapTx, h1, hto, h2m, hdec, resSt]
      | some p =>
        obtain ⟨fn, rawArgs⟩ := p
        cases hfm : env.funcMap (env.nameOf a) fn with
        | none => simp [bootstrapTx, h1, hto, h2m, hdec, hfm, resSt]
        | some ename =>
          by_cases hdd : strContains ename "dao_disable" = true
          · simp only [bootstrapTx, h1, hto, hdec, hfm, bootstrapCreateEmbed, hdd, h2, h2m,
              Bool.false_eq_true, if_false, if_true, reduceCtorEq]
            split <;> simp [resSt]
          · simp only [bootstrapTx, h1, hto, hdec, hfm, bootstrapCreateEmbed, hdd, h2, h2m,
              Bool.false_eq_true, if_false, if_true, reduceCtorEq]
            split <;> simp [resSt]
    · have h2m : a ∉ env.addresses := by simpa using h2
      exact ⟨[], by simp [bootstrapTx, h1, hto, h2m, resSt], by simp⟩

theorem bootstrapFold_trace (env : TxEnv) :
    ∀ (txs : List RawTx) (st : BootstrapCycleSt),
      ∃ ext, (resSt (txs.foldlM (bootstrapTx env) st)).trace = st.trace ++ ext ∧
        ∀ a ∈ ext, a.isDispatch = false := by
  intro txs
  induction txs with
  | nil =>
    intro st
    exact ⟨[], by simp only [List.foldlM_nil]; simp [resSt, pure, Except.pure], by simp⟩
  | cons tx txs ih =>
    intro st
    rw [List.foldlM_cons]
    cases hres : bootstrapTx env st tx with
    | error e =>
      obtain ⟨ext, he, hd⟩ := bootstrapTx_trace env st tx
      rw [hres] at he
      obtain ⟨e1, st1⟩ := e
      exact ⟨ext, by simpa [resSt] using he, hd⟩
    | ok st1 =>
      obtain ⟨ext1, he1, hd1⟩ := bootstrapTx_trace env st tx
      rw [hres] at he1
      simp only [resSt] at he1
      obtain ⟨ext2, he2, hd2⟩ := ih st1
      refine ⟨ext1 ++ ext2, ?_, ?_⟩
      · simpa [he1, List.append_assoc] using he2
      · intro a ha
        rcases List.mem_append.mp ha with hl | hr
        · exact hd1 a hl
        · exact hd2 a hr

theorem bootstrapBlocksFold_trace (env : TxEnv) :
    ∀ (blocks : List Block) (st : BootstrapCycleSt),
      ∃ ext, (resSt (blocks.foldlM
          (fun st b => b.txs.foldlM (bootstrapTx env) st) st)).trace = st.trace ++ ext ∧
        ∀ a ∈ ext, a.isDispatch = false := by
  intro blocks
  induction blocks with
  | nil =>
    intro st
    exact ⟨[], by simp only [List.foldlM_nil]; simp [resSt, pure, Except.pure], by simp⟩
  | cons b blocks ih =>
    intro st
    rw [List.foldlM_cons]
    cases hres : b.txs.foldlM (bootstrapTx env) st with
    | error e =>
      obtain ⟨ext, he, hd⟩ := bootstrapFold_trace env b.txs st
      rw [hres] at he
      obtain ⟨e1, st1⟩ := e
      exact ⟨ext, by simpa [resSt] using he, hd⟩
    | ok st1 =>
      obtain ⟨ext1, he1, hd1⟩ := bootstrapFold_trace env b.txs st
      rw [hres] at he1
      simp only [resSt] at he1
      obtain ⟨ext2, he2, hd2⟩ := ih st1
      refine ⟨ext1 ++ ext2, ?_, ?_⟩
      · simpa [he1, List.append_assoc] using he2
      · intro a ha
        rcases List.mem_append.mp ha with hl | hr
        · exact hd1 a hl
        · exact hd2 a hr

theorem cacheWritesAtEnd_append (u v : List Act)
    (hu : ∀ a ∈ u, a.isCacheInsert = false) (hv : ∀ a ∈ v, a.isCacheInsert = true) :
    cacheWritesAtEnd (u ++ v) = true := by
  induction u with
  | nil =>
    simp only [List.nil_append]
    cases v with
    | nil => rfl
    | cons a v' =>
      unfold cacheWritesAtEnd
      rw [List.dropWhile_cons]
      have ha := hv a (List.mem_cons_self a v')
      simp only [ha, Bool.not_true, Bool.false_eq_true, if_false, List.all_eq_true]
      exact hv
  | cons a u' ih =>
    unfold cacheWritesAtEnd at ih ⊢
    rw [List.cons_append, List.dropWhile_cons]
    have ha := hu a (List.mem_cons_self a u')
    simp only [ha, Bool.not_false, if_true]
    exact ih (fun x hx => hu x (List.mem_cons_of_mem a hx))

theorem insertedKeys_append (u v : List Act) :
    insertedKeys (u ++ v) = insertedKeys u ++ insertedKeys v := by
  unfold insertedKeys
  rw [List.filterMap_append]

theorem insertedKeys_eq_nil (u : List Act) (hu : ∀ a ∈ u, a.isCacheInsert = false) :
    insertedKeys u = [] := by
  unfold insertedKeys
  rw [List.filterMap_eq_nil_iff]
  intro a ha
  cases a with
  | cacheInsert k => cases hu _ ha
  | decodeAttempt k => rfl
  | dispatch n k c => rfl

theorem insertedKeys_map_cacheInsert (ks : List Nat) :
    insertedKeys (ks.map Act.cacheInsert) = ks := by
  unfold insertedKeys
  induction ks with
  | nil => rfl
  | cons k ks ih => simpa [List.filterMap_cons] using ih

theorem pairwise_insertMsg (m : Msg) (l : List Msg)
    (h : l.Pairwise (fun a b => a.score ≤ b.score)) :
    (insertMsg m l).Pairwise (fun a b => a.score ≤ b.score) := by
  induction l with
  | nil => simp [insertMsg]
  | cons x xs ih =>
    rcases List.pairwise_cons.mp h with ⟨hx, hxs⟩
    by_cases hle : m.score ≤ x.score
    · rw [insertMsg, if_pos hle]
      refine List.pairwise_cons.mpr ⟨?_, h⟩
      intro b hb
      rcases List.mem_cons.mp hb with rfl | hb'
      · exact hle
      · exact le_trans hle (hx b hb')
    · rw [insertMsg, if_neg hle]
      refine List.pairwise_cons.mpr ⟨?_, ih hxs⟩
      intro b hb
      rcases List.mem_cons.mp ((perm_insertMsg m xs).mem_iff.mp hb) with rfl | hb'
      · exact le_of_lt (not_le.mp hle)
      · exact hx b hb'

theorem pairwise_sortMsgs (l : List Msg) :
    (sortMsgs l).Pairwise (fun a b => a.score ≤ b.score) := by
  induction l with
  | nil => simp [sortMsgs]
  | cons x xs ih => exact pairwise_insertMsg x (sortMsgs xs) ih

theorem head?_filter_eq_find? {α : Type} (p : α → Bool) (l : List α) :
    (l.filter p).head? = l.find? p := by
  induction l with
  | nil => rfl
  | cons x xs ih =>
    by_cases hp : p x = true
    · simp [List.filter_cons, List.find?_cons, hp]
    · simp only [Bool.not_eq_true] at hp
      simp [List.filter_cons, List.find?_cons, hp, ih]

theorem eventsCycle_no_h (env : EventsEnv) (cache : FIFOCache) (batch : List RawLog)
    (h : Nat) (hc : cache.contains h = true) :
    ∀ a ∈ (eventsCycle env cache batch).trace, a.hashOf ≠ h := by
  obtain ⟨h1, h2, h3⟩ := eventsFold_no_h env cache h hc batch ⟨[], [], []⟩
    (by simp) (by simp) (by simp)
  intro a ha
  unfold eventsCycle at ha
  simp only at ha
  rcases List.mem_append.mp ha with hl | hr
  · rcases List.mem_append.mp hl with hll | hlr
    · exact h1 a hll
    · obtain ⟨m, hm, rfl⟩ := List.mem_map.mp hlr
      exact h2 m ((perm_sortMsgs _).mem_iff.mp hm)
  · obtain ⟨x, hx, rfl⟩ := List.mem_map.mp hr
    exact h3 x (List.mem_dedup.mp hx)

theorem eventsCycle_dispatchCount (env : EventsEnv) (cache : FIFOCache)
    (batch : List RawLog) (h : Nat) :
    dispatchCount h (eventsCycle env cache batch).trace =
      (batch.foldl (eventsItem env cache) ⟨[], [], []⟩).messages.countP
        (fun m => m.hash == h) := by
  unfold eventsCycle dispatchCount
  simp only
  rw [List.countP_append, List.countP_append]
  have hfold : ((batch.foldl (eventsItem env cache) ⟨[], [], []⟩).trace).countP
      (fun a => a.isDispatch && a.hashOf == h) = 0 := by
    rw [List.countP_eq_zero]
    intro a ha
    have := eventsFold_trace_decode env cache batch ⟨[], [], []⟩ (by simp) a ha
    cases a with
    | decodeAttempt k => simp [Act.isDispatch]
    | cacheInsert k => cases this
    | dispatch n k c => cases this
  have hins : (((batch.foldl (eventsItem env cache) ⟨[], [], []⟩).tnxHashes.dedup).map
      Act.cacheInsert).countP (fun a => a.isDispatch && a.hashOf == h) = 0 := by
    rw [List.countP_eq_zero]
    intro a ha
    obtain ⟨x, _, rfl⟩ := List.mem_map.mp ha
    simp [Act.isDispatch]
  rw [hfold, hins, List.countP_map]
  rw [(perm_sortMsgs _).countP_eq]
  simp [Function.comp_def, Act.isDispatch, Act.hashOf]

/-- A two-contract-event scenario for the ordering claim: both logs come
from a watched contract in block 100; A has transaction index 2 and log
index 0, B has transaction index 1 and log index 5 (the spec's §8 example). -/
def eventsOrderEnv : EventsEnv :=
  { contractNameOf := fun a => if a = 10 then some "rocketDAOProposal" else none
    eventNameOf := fun _ ev => if ev.txHash = 1 then "odao_eventA" else "odao_eventB"
    minipoolName := fun _ => none
    channels := [("default", 7)] }

def eventsLogA : RawLog := ⟨1, 10, 100, 2, 0, false, false⟩

def eventsLogB : RawLog := ⟨2, 10, 100, 1, 5, false, false⟩

/-- C1, counterexample.  At the spec's own example — DecodedEvent A (block
100, txIndex 2, logIndex 0) and B (block 100, txIndex 1, logIndex 5) in the
same cycle, B even polled first — the events pipeline dispatches A *before*
B, because its sort key `blockNumber + logIndex/1000` ignores the
transaction index; and the bootstrap key weighs `transactionIndex` and
`logIndex` at the same `10⁻³` scale, so it also scores A (100.002) below B
(100.006).  This contradicts the claimed block→txIndex→logIndex priority
and the claimed dispatch of B before A. -/
theorem C1_sortkey_counterexample :
    (eventsCycle eventsOrderEnv (FIFOCache.empty 256) [eventsLogB, eventsLogA]).trace =
      [.decodeAttempt 2, .decodeAttempt 1,
       .dispatch "odao_eventA" 1 (some 7), .dispatch "odao_eventB" 2 (some 7),
       .cacheInsert 2, .cacheInsert 1] ∧
    bootstrapScore 100 2 (some 0) < bootstrapScore 100 1 (some 5) := by
  constructor
  · norm_num [eventsCycle, eventsItem, eventsOrderEnv, eventsLogA, eventsLogB, sortMsgs,
      insertMsg, eventsScore, routeChannel, FIFOCache.empty, FIFOCache.contains,
      FIFOCache.insertAll, FIFOCache.insert, List.dedup, List.foldl]
    decide
  · norm_num [bootstrapScore]

/-- C1, amended.  The events-variant sort key is `blockNumber +
logIndex/1000`: for log indices below 1000 it orders events by block number
first and log index second, and the transaction index plays no role.  The
bootstrap-variant key adds `transactionIndex` and (when present) `logIndex`
at the same `10⁻³` weight, i.e. it equals `blockNumber + (txIndex +
logIndex)/1000`.  Dispatch proceeds in ascending key order (the stable sort
is sorted by score).  In particular, for the spec's example pair, A is
dispatched before B. -/
theorem C1_sortkey_amended (b1 l1 b2 l2 : Nat) (h1 : l1 < 1000) (h2 : l2 < 1000) :
    ((eventsScore b1 l1 < eventsScore b2 l2) ↔ (b1 < b2 ∨ (b1 = b2 ∧ l1 < l2))) ∧
    (∀ b t lg : Nat,
      bootstrapScore b t (some lg) = (b : ℚ) + ((t : ℚ) + (lg : ℚ)) / 1000) ∧
    (∀ msgs : List Msg, (sortMsgs msgs).Pairwise (fun a b => a.score ≤ b.score)) := by
  refine ⟨?_, ?_, fun msgs => pairwise_sortMsgs msgs⟩
  · constructor
    · intro h
      have hq : ((1000 * b1 + l1 : Nat) : ℚ) < ((1000 * b2 + l2 : Nat) : ℚ) := by
        unfold eventsScore at h
        push_cast
        linarith
      have hn : 1000 * b1 + l1 < 1000 * b2 + l2 := by exact_mod_cast hq
      omega
    · intro h
      have hn : 1000 * b1 + l1 < 1000 * b2 + l2 := by omega
      have hq : ((1000 * b1 + l1 : Nat) : ℚ) < ((1000 * b2 + l2 : Nat) : ℚ) := by
        exact_mod_cast hn
      unfold eventsScore
      push_cast at hq
      linarith
  · intro b t lg
    unfold bootstrapScore
    ring

theorem C1_sortkey_amended_witness :
    ((eventsScore 100 0 < eventsScore 100 5) ↔ (100 < 100 ∨ (100 = 100 ∧ 0 < 5))) ∧
    (∀ b t lg : Nat,
      bootstrapScore b t (some lg) = (b : ℚ) + ((t : ℚ) + (lg : ℚ)) / 1000) ∧
    (∀ msgs : List Msg, (sortMsgs msgs).Pairwise (fun a b => a.score ≤ b.score)) :=
  C1_sortkey_amended 100 0 100 5 (by norm_num) (by norm_num)

/-- A bootstrap registry whose watched contract decodes calldata 77 to a
`bootstrapDisable` call with `_confirmDisableBootstrapMode = True` and
calldata 78 to the same call with the flag `False`; the registry maps the
function to a logical event name carrying the `dao_disable` marker. -/
def disableTxEnv : TxEnv :=
  { addresses := [20]
    nameOf := fun _ => "rocketDAONodeTrusted"
    decodeInput := fun _ d =>
      if d = 77 then some ("bootstrapDisable", [("_confirmDisableBootstrapMode", true)])
      else if d = 78 then some ("bootstrapDisable", [("_confirmDisableBootstrapMode", false)])
      else none
    funcMap := fun _ fn => if fn = "bootstrapDisable" then some "odao_dao_disable" else none
    channel := 3 }

def disableTxTrue : RawTx := ⟨9, some 20, false, 100, 0, 77, true⟩

def disableTxFalse : RawTx := ⟨11, some 20, false, 100, 0, 78, true⟩

/-- C2.  Evaluation of the bootstrap pipeline at the failing input: a
`dao_disable` event whose confirm-flag is present and `True` dispatches
*zero* notifications and raises `AttributeError` — `Bootstrap.create_embed`
line 54 reads `event.confirmDisableBootstrapMode` from the transaction
object instead of the decoded `event.args` (where the flag lives, and where
the parallel `QueuedTransactions.create_embed` line 56 reads it) — so the
cycle aborts instead of dispatching exactly one notification.  With the
flag `False` the event is suppressed without an exception, as claimed. -/
theorem C2_disable_gate_bug :
    bootstrapCycle disableTxEnv (FIFOCache.empty 256) [⟨0, [disableTxTrue]⟩] =
      .error (.attributeErr,
        ⟨⟨[9], 256⟩, [], [.cacheInsert 9, .decodeAttempt 9]⟩) ∧
    bootstrapCycle disableTxEnv (FIFOCache.empty 256) [⟨0, [disableTxFalse]⟩] =
      .ok ⟨⟨[11], 256⟩, [], [.cacheInsert 11, .decodeAttempt 11]⟩ := by
  constructor <;> rfl

/-- A bootstrap registry where calldata 50 decodes to a known registry
function and calldata 99 matches no ABI entry of the watched contract. -/
def badDecodeEnv : TxEnv :=
  { addresses := [20]
    nameOf := fun _ => "rocketDAONodeTrustedActions"
    decodeInput := fun _ d => if d = 50 then some ("actionChallengeMake", []) else none
    funcMap := fun _ fn =>
      if fn = "actionChallengeMake" then some "odao_challenge" else none
    channel := 3 }

def badDecodeTx : RawTx := ⟨5, some 20, false, 100, 0, 99, true⟩

def goodDecodeTx : RawTx := ⟨6, some 20, false, 100, 1, 50, true⟩

/-- C3, counterexample.  A transaction to a watched contract whose calldata
matches no ABI entry makes `decode_function_input` raise, and nothing
catches it inside the cycle: the batch `[bad, good]` aborts with the decode
error after caching and attempting to decode only the bad item — the good
item (hash 6) is never decoded and nothing is dispatched, contradicting
both "no exception escapes the cycle" and "does not abort processing of the
remaining items". -/
theorem C3_decode_abort_counterexample :
    bootstrapCycle badDecodeEnv (FIFOCache.empty 256) [⟨0, [badDecodeTx, goodDecodeTx]⟩] =
      .error (.decodeErr, ⟨⟨[5], 256⟩, [], [.cacheInsert 5, .decodeAttempt 5]⟩) := by
  rfl

/-- C3, amended.  A raw item whose calldata matches no ABI entry of its
watched contract produces no event, but the `ValueError` of
`decode_function_input` escapes `check_for_new_transactions` and aborts the
cycle: whatever prefix of the batch was already processed, the cycle
terminates at the bad item in the error state — its hash cached and its
decode attempted last, every later item unprocessed — and no dispatch has
happened in the aborted cycle (in the bootstrap variant `run_loop` then
catches the exception, reports it and moves the pipeline to `"ERROR"`). -/
theorem C3_decode_abort_amended (env : TxEnv) (cache : FIFOCache) (ts : Nat)
    (pre post : List RawTx) (bad : RawTx) (a : Nat) (st : BootstrapCycleSt)
    (hpre : pre.foldlM (bootstrapTx env) (⟨cache, [], []⟩ : BootstrapCycleSt) = .ok st)
    (hrem : bad.removed = false) (hcached : st.cache.contains bad.hash = false)
    (hto : bad.toAddr = some a) (haddr : env.addresses.contains a = true)
    (hdec : env.decodeInput a bad.callData = none) :
    bootstrapCycle env cache [⟨ts, pre ++ bad :: post⟩] =
      .error (.decodeErr,
        ⟨st.cache.insert bad.hash, st.messages,
         st.trace ++ [.cacheInsert bad.hash, .decodeAttempt bad.hash]⟩) ∧
    ∀ x ∈ st.trace, x.isDispatch = false := by
  have h2m : a ∈ env.addresses := by simpa using haddr
  constructor
  · have hstep : bootstrapTx env st bad =
        .error (.decodeErr,
          ⟨st.cache.insert bad.hash, st.messages,
           st.trace ++ [.cacheInsert bad.hash, .decodeAttempt bad.hash]⟩) := by
      simp [bootstrapTx, hrem, hcached, hto, h2m, hdec]
    unfold bootstrapCycle
    rw [List.foldlM_cons]
    simp only [List.foldlM_nil]
    rw [List.foldlM_append, hpre]
    have hbind : ((Except.ok st >>= fun s => (bad :: post).foldlM (bootstrapTx env) s)
        : Except (PyErr × BootstrapCycleSt) BootstrapCycleSt) =
        (bad :: post).foldlM (bootstrapTx env) st := rfl
    rw [hbind, List.foldlM_cons, hstep]
    rfl
  · obtain ⟨ext, he, hd⟩ := bootstrapFold_trace env pre ⟨cache, [], []⟩
    rw [hpre] at he
    simp only [resSt] at he
    intro x hx
    rw [he] at hx
    exact hd x (by simpa using hx)

theorem C3_decode_abort_amended_witness :
    bootstrapCycle badDecodeEnv (FIFOCache.empty 256) [⟨0, [] ++ badDecodeTx :: []⟩] =
      .error (.decodeErr,
        ⟨(FIFOCache.empty 256).insert badDecodeTx.hash, [],
         [] ++ [.cacheInsert badDecodeTx.hash, .decodeAttempt badDecodeTx.hash]⟩) ∧
    ∀ x ∈ ([] : List Act), x.isDispatch = false :=
  C3_decode_abort_amended badDecodeEnv (FIFOCache.empty 256) 0 [] [] badDecodeTx 20
    ⟨FIFOCache.empty 256, [], []⟩ rfl rfl (by decide) rfl (by decide) (by decide)

/-- C4.  Once an item's hash is in the persistent cache after a cycle, a
later cycle performs no action at all for that hash — no decode, no
dispatch, no cache write — for as long as the hash is still cached when the
cycle starts; and the total number of notifications dispatched for the hash
across the two cycles is bounded by the number of batch-1 items bearing it
(so feeding the same RawActivityItem once per cycle yields at most one
dispatched notification). -/
theorem C4_dedup_idempotence (env : EventsEnv) (c : FIFOCache) (b1 b2 : List RawLog)
    (h : Nat) (hc : (eventsCycle env c b1).cache.contains h = true) :
    (∀ a ∈ (eventsCycle env (eventsCycle env c b1).cache b2).trace, a.hashOf ≠ h) ∧
    dispatchCount h ((eventsCycle env c b1).trace ++
        (eventsCycle env (eventsCycle env c b1).cache b2).trace) ≤
      b1.countP (fun ev => ev.txHash == h) := by
  have hno := eventsCycle_no_h env (eventsCycle env c b1).cache b2 h hc
  refine ⟨hno, ?_⟩
  unfold dispatchCount
  rw [List.countP_append]
  have hc2 : dispatchCount h (eventsCycle env (eventsCycle env c b1).cache b2).trace = 0 := by
    unfold dispatchCount
    rw [List.countP_eq_zero]
    intro a ha
    have := hno a ha
    simp only [Bool.and_eq_true, beq_iff_eq]
    intro hcontra
    exact this hcontra.2
  unfold dispatchCount at hc2
  rw [hc2]
  have h1 := eventsCycle_dispatchCount env c b1 h
  unfold dispatchCount at h1
  rw [h1]
  have h2 := eventsFold_msg_count env c h b1 ⟨[], [], []⟩
  simpa using h2

def c4Env : EventsEnv :=
  { contractNameOf := fun a => if a = 10 then some "rocketNetworkPrices" else none
    eventNameOf := fun _ _ => "rpl_price_update"
    minipoolName := fun _ => none
    channels := [("default", 7)] }

def c4Log : RawLog := ⟨1, 10, 100, 0, 0, false, false⟩

theorem C4_dedup_idempotence_witness :
    (∀ a ∈ (eventsCycle c4Env (eventsCycle c4Env (FIFOCache.empty 256) [c4Log]).cache
        [c4Log]).trace, a.hashOf ≠ 1) ∧
    dispatchCount 1 ((eventsCycle c4Env (FIFOCache.empty 256) [c4Log]).trace ++
        (eventsCycle c4Env (eventsCycle c4Env (FIFOCache.empty 256) [c4Log]).cache
          [c4Log]).trace) ≤
      [c4Log].countP (fun ev => ev.txHash == 1) :=
  C4_dedup_idempotence c4Env (FIFOCache.empty 256) [c4Log] [c4Log] 1 (by decide)

/-- C5.  The dedup cache is created with `FIFOCache(maxsize=256)`; after
inserting 257 pairwise distinct keys into an empty cache the first inserted
key is no longer contained, and an events cycle that then sees an item
bearing the evicted hash processes it again: its calldata is decoded and a
notification for it is dispatched a second time. -/
theorem C5_fifo_eviction (k : Nat) (t : List Nat) (env : EventsEnv) (ev : RawLog)
    (cname : String) (hnd : (k :: t).Nodup) (hlen : (k :: t).length = 257)
    (hev : ev.txHash = k) (hrm : ev.removed = false)
    (hcn : env.contractNameOf ev.address = some cname) :
    ((FIFOCache.empty 256).insertAll (k :: t)).contains k = false ∧
    Act.dispatch (env.eventNameOf cname ev) k
        (routeChannel env.channels (env.eventNameOf cname ev)) ∈
      (eventsCycle env ((FIFOCache.empty 256).insertAll (k :: t)) [ev]).trace ∧
    Act.decodeAttempt k ∈
      (eventsCycle env ((FIFOCache.empty 256).insertAll (k :: t)) [ev]).trace := by
  have hnc := FIFOCache.not_contains_head_insertAll 256 (by norm_num) k t hnd hlen
  subst hev
  refine ⟨hnc, ?_, ?_⟩ <;>
    simp [eventsCycle, eventsItem, hrm, hnc, hcn, sortMsgs, insertMsg]

def c5Env : EventsEnv :=
  { contractNameOf := fun a => if a = 10 then some "rocketNetworkBalances" else none
    eventNameOf := fun _ _ => "network_balance_update"
    minipoolName := fun _ => none
    channels := [("default", 7)] }

def c5Log : RawLog := ⟨0, 10, 100, 0, 0, false, false⟩

theorem C5_fifo_eviction_witness :
    ((FIFOCache.empty 256).insertAll (0 :: List.range' 1 256)).contains 0 = false ∧
    Act.dispatch "network_balance_update" 0
        (routeChannel c5Env.channels "network_balance_update") ∈
      (eventsCycle c5Env ((FIFOCache.empty 256).insertAll (0 :: List.range' 1 256))
        [c5Log]).trace ∧
    Act.decodeAttempt 0 ∈
      (eventsCycle c5Env ((FIFOCache.empty 256).insertAll (0 :: List.range' 1 256))
        [c5Log]).trace :=
  C5_fifo_eviction 0 (List.range' 1 256) c5Env c5Log "rocketNetworkBalances"
    (by rw [show (0 :: List.range' 1 256) = List.range' 0 257 from rfl]
        exact List.nodup_range' 0 257)
    (by simp) rfl rfl (by decide)

/-- C6, amended for the events variant, where the claim holds: the trace of
one events cycle performs all its persistent-cache writes in one block at
the very end, after every decode and every dispatch, and the set of keys
written is exactly the set of transaction hashes observed this cycle —
including hashes of items that produced no event. -/
theorem C6_cache_write_amended (env : EventsEnv) (cache : FIFOCache) (batch : List RawLog) :
    cacheWritesAtEnd (eventsCycle env cache batch).trace = true ∧
    (∀ x, x ∈ insertedKeys (eventsCycle env cache batch).trace ↔
      x ∈ observedHashes cache batch) := by
  have hA : ∀ a ∈ (batch.foldl (eventsItem env cache) ⟨[], [], []⟩).trace,
      a.isCacheInsert = false := by
    intro a ha
    have := eventsFold_trace_decode env cache batch ⟨[], [], []⟩ (by simp) a ha
    cases a with
    | decodeAttempt k => rfl
    | cacheInsert k => cases this
    | dispatch n k c => cases this
  have hB : ∀ a ∈ ((sortMsgs (batch.foldl (eventsItem env cache) ⟨[], [], []⟩).messages).map
      (fun m => Act.dispatch m.name m.hash (routeChannel env.channels m.name))),
      a.isCacheInsert = false := by
    intro a ha
    obtain ⟨m, _, rfl⟩ := List.mem_map.mp ha
    rfl
  have hC : ∀ a ∈ (((batch.foldl (eventsItem env cache) ⟨[], [], []⟩).tnxHashes.dedup).map
      Act.cacheInsert), a.isCacheInsert = true := by
    intro a ha
    obtain ⟨x, _, rfl⟩ := List.mem_map.mp ha
    rfl
  constructor
  · unfold eventsCycle
    simp only
    apply cacheWritesAtEnd_append
    · intro a ha
      rcases List.mem_append.mp ha with hl | hr
      · exact hA a hl
      · exact hB a hr
    · exact hC
  · intro x
    unfold eventsCycle
    simp only
    rw [insertedKeys_append, insertedKeys_append,
      insertedKeys_eq_nil _ hA, insertedKeys_eq_nil _ hB, insertedKeys_map_cacheInsert]
    simp only [List.nil_append, List.append_nil]
    rw [List.mem_dedup]
    have := eventsFold_mem_tnxHashes env cache batch ⟨[], [], []⟩ x
    simpa using this

/-- A bootstrap registry with one watched contract (address 20) whose
calldata 50 decodes to a registry function, plus a transaction to an
unwatched address. -/
def midWriteEnv : TxEnv :=
  { addresses := [20]
    nameOf := fun _ => "rocketStorage"
    decodeInput := fun _ d => if d = 50 then some ("confirmGuardian", []) else none
    funcMap := fun _ fn =>
      if fn = "confirmGuardian" then some "storage_guardian_confirm" else none
    channel := 3 }

def midWriteTx : RawTx := ⟨1, some 20, false, 100, 0, 50, true⟩

def unwatchedTx : RawTx := ⟨2, some 99, false, 100, 1, 50, true⟩

/-- C6, counterexample.  In the bootstrap variant the persistent cache is
*not* written once at the end of the cycle: the matched transaction's hash
is inserted immediately (line 121), before its own decode and before the
dispatch phase, so the cycle's trace fails the writes-at-end property; and
the observed transaction to an unwatched address (hash 2) is never recorded
in the cache at all, so the write is not the union of all identifiers
observed during the cycle. -/
theorem C6_cache_write_counterexample :
    (bootstrapCycle midWriteEnv (FIFOCache.empty 256)
        [⟨0, [midWriteTx, unwatchedTx]⟩]).map
      (fun st => (cacheWritesAtEnd st.trace, st.cache.contains 2)) =
      .ok (false, false) := by
  rfl

/-- C7, counterexample.  Pipeline in state `"OK"`, the cycle raises, and the
same-tick reset attempt itself fails (`resetOk = false`): the pipeline's
state afterwards is `"OK"`, not `"ERROR"` — `__init__` set `state = "OK"`
before reaching the operation that failed — so the next tick will run a
normal cycle instead of retrying the reset. -/
theorem C7_reset_failure_counterexample :
    (bootstrapRunLoop (fun s => .error s) false ⟨"OK", FIFOCache.empty 256⟩).state = "OK" ∧
    "OK" ≠ "ERROR" := by
  constructor
  · rfl
  · decide

/-- C7, amended.  When a cycle raises, `run_loop` sets the state to
`"ERROR"`, reports, and attempts the full reset *on the same tick* (not the
next); a failure of that reset is only logged (the tick still returns
normally), but afterwards the state is `"OK"` — `Bootstrap.__init__`
assigns `state = "OK"` before any operation that can raise — whether or not
the reset succeeded, so the next tick runs a normal cycle rather than
retrying the reset.  A tick that starts in state `"ERROR"` likewise leaves
state `"OK"` even when its reset attempt fails. -/
theorem C7_reset_failure_amended (cyc : LoopSt → Except LoopSt LoopSt) (ok : Bool)
    (s s1 : LoopSt) (hstop : s.state ≠ "STOPPED") (herr : s.state ≠ "ERROR")
    (hcyc : cyc { s with state := "OK" } = .error s1) :
    bootstrapRunLoop cyc ok s = bootstrapReinitAttempt ok { s1 with state := "ERROR" } ∧
    (bootstrapRunLoop cyc ok s).state = "OK" ∧
    (bootstrapRunLoop cyc ok ⟨"ERROR", s.cache⟩).state = "OK" := by
  have h1 : bootstrapRunLoop cyc ok s =
      bootstrapReinitAttempt ok { s1 with state := "ERROR" } := by
    unfold bootstrapRunLoop
    rw [if_neg hstop, if_pos herr, hcyc]
  refine ⟨h1, ?_, ?_⟩
  · rw [h1]
    unfold bootstrapReinitAttempt
    cases ok <;> rfl
  · unfold bootstrapRunLoop
    rw [if_neg (by simp), if_neg (by simp)]
    unfold bootstrapReinitAttempt
    cases ok <;> rfl

theorem C7_reset_failure_amended_witness :
    bootstrapRunLoop (fun s => .error s) false ⟨"OK", FIFOCache.empty 0⟩ =
      bootstrapReinitAttempt false ⟨"ERROR", FIFOCache.empty 0⟩ ∧
    (bootstrapRunLoop (fun s => .error s) false ⟨"OK", FIFOCache.empty 0⟩).state = "OK" ∧
    (bootstrapRunLoop (fun s => .error s) false ⟨"ERROR", FIFOCache.empty 0⟩).state = "OK" :=
  C7_reset_failure_amended (fun s => .error s) false ⟨"OK", FIFOCache.empty 0⟩
    ⟨"OK", FIFOCache.empty 0⟩ (by decide) (by decide) rfl

/-- A transactions-variant registry with one watched non-deposit contract
and a look-back window holding one decodable matched transaction. -/
def c8Env : TxEnv :=
  { addresses := [30]
    nameOf := fun _ => "rocketMinipoolQueue"
    decodeInput := fun _ d => if d = 60 then some ("dequeueMinipool", []) else none
    funcMap := fun _ fn => if fn = "dequeueMinipool" then some "queue_dequeue" else none
    channel := 0 }

def c8Blocks : TxBlocks :=
  ⟨[some ⟨0, [⟨8, some 30, false, 100, 0, 60, true⟩]⟩], []⟩

/-- C8.  Evaluation of `QueuedTransactions.run_loop` at the failing input:
on a tick that observes state `"RUNNING"` (previous cycle interrupted), the
code re-initializes the plugin (state back to `"INIT"`) and then calls
`check_for_new_transactions()` anyway on that very tick — a full look-back
cycle executes, decoding the matched transaction and returning its payload
with final state `"OK"` — whereas the claim requires that no cycle body be
executed on a tick that observes `"RUNNING"`. -/
theorem C8_running_guard_bug :
    txRunLoop c8Env c8Blocks ⟨"RUNNING"⟩ =
      .ok (⟨"OK"⟩,
        ⟨[⟨"queue_dequeue", toString (8 : Nat) ++ ":" ++ "queue_dequeue", 100, 0⟩],
         [.decodeAttempt 8]⟩) := by
  rfl

/-- C9.  The destination channel of a dispatched notification is computed by
prefix routing over the configured channel table: the first table entry
whose key is a prefix of the logical event name wins, and when no key is a
prefix the `default` entry of the table is used; every dispatch the events
cycle emits carries exactly this routed channel for its event name. -/
theorem C9_channel_routing (channels : List (String × Nat)) (name : String) :
    (∀ kv : String × Nat,
        channels.find? (fun kv => strStartsWith name kv.1) = some kv →
        routeChannel channels name = some kv.2) ∧
    (channels.find? (fun kv => strStartsWith name kv.1) = none →
        routeChannel channels name = channels.lookup "default") ∧
    (∀ (env : EventsEnv) (cache : FIFOCache) (batch : List RawLog) (nm : String)
        (h : Nat) (ch : Option Nat),
        Act.dispatch nm h ch ∈ (eventsCycle env cache batch).trace →
        ch = routeChannel env.channels nm) := by
  refine ⟨?_, ?_, ?_⟩
  · intro kv hfind
    unfold routeChannel
    rw [head?_filter_eq_find?, hfind]
  · intro hfind
    unfold routeChannel
    rw [head?_filter_eq_find?, hfind]
  · intro env cache batch nm h ch hmem
    unfold eventsCycle at hmem
    simp only at hmem
    rcases List.mem_append.mp hmem with hl | hr
    · rcases List.mem_append.mp hl with hll | hlr
      · have := eventsFold_trace_decode env cache batch ⟨[], [], []⟩ (by simp) _ hll
        cases this
      · obtain ⟨m, _, heq⟩ := List.mem_map.mp hlr
        simp only [Act.dispatch.injEq] at heq
        obtain ⟨h1, _, h3⟩ := heq
        rw [← h3, h1]
    · obtain ⟨x, _, heq⟩ := List.mem_map.mp hr
      exact absurd heq (by simp)

def c9Channels : List (String × Nat) := [("odao", 5), ("default", 7)]

def c9Env : EventsEnv :=
  { contractNameOf := fun a => if a = 10 then some "rocketDAONodeTrustedActions" else none
    eventNameOf := fun _ _ => "odao_challenge"
    minipoolName := fun _ => none
    channels := c9Channels }

def c9Log : RawLog := ⟨3, 10, 100, 0, 0, false, false⟩

theorem C9_channel_routing_witness :
    routeChannel c9Channels "odao_challenge" = some 5 ∧
    routeChannel c9Channels "rpl_price_update" = c9Channels.lookup "default" ∧
    some 5 = routeChannel c9Env.channels "odao_challenge" :=
  ⟨(C9_channel_routing c9Channels "odao_challenge").1 ("odao", 5) (by decide),
   (C9_channel_routing c9Channels "rpl_price_update").2.1 (by decide),
   (C9_channel_routing c9Channels "odao_challenge").2.2 c9Env (FIFOCache.empty 256) [c9Log]
     "odao_challenge" 3 (some 5) (by decide)⟩

/-- C10.  In the transactions variant, the receipt gate skips — with no
decode attempt, no payload entry and no state change at all — every
*successful* transaction to `rocketNodeDeposit`, and every *reverted*
transaction to any other watched contract; both are dropped before
decoding. -/
theorem C10_receipt_gate (env : TxEnv) (st : TxCycleSt) (tx : RawTx) (a : Nat)
    (hto : tx.toAddr = some a) (haddr : env.addresses.contains a = true)
    (hgate : (env.nameOf a = "rocketNodeDeposit" ∧ tx.status = true) ∨
             (env.nameOf a ≠ "rocketNodeDeposit" ∧ tx.status = false)) :
    txItem env st tx = .ok st := by
  have h2m : a ∈ env.addresses := by simpa using haddr
  rcases hgate with ⟨hn, hs⟩ | ⟨hn, hs⟩
  · simp [txItem, hto, h2m, hn, hs]
  · simp [txItem, hto, h2m, hn, hs]

def c10Env : TxEnv :=
  { addresses := [30, 40]
    nameOf := fun a => if a = 30 then "rocketNodeDeposit" else "rocketMinipoolQueue"
    decodeInput := fun _ _ => none
    funcMap := fun _ _ => none
    channel := 0 }

def c10TxDeposit : RawTx := ⟨21, some 30, false, 100, 0, 60, true⟩

def c10TxReverted : RawTx := ⟨22, some 40, false, 100, 1, 60, false⟩

theorem C10_receipt_gate_witness :
    txItem c10Env ⟨[], []⟩ c10TxDeposit = .ok ⟨[], []⟩ ∧
    txItem c10Env ⟨[], []⟩ c10TxReverted = .ok ⟨[], []⟩ :=
  ⟨C10_receipt_gate c10Env ⟨[], []⟩ c10TxDeposit 30 rfl (by decide)
      (Or.inl ⟨by decide, rfl⟩),
   C10_receipt_gate c10Env ⟨[], []⟩ c10TxReverted 40 rfl (by decide)
      (Or.inr ⟨by decide, rfl⟩)⟩
